import Mathlib

set_option maxRecDepth 8192

/-!
Verification of the XStitch browser extension's capture pipeline.

This file embeds the core logic of `background.ts` (the archive
reconstruction in `processZipData`, the single-image save path, the
notification batcher `scheduleNotification`, the `TOGGLE_SIDE_PANEL`
handler and the `chrome.runtime.onMessage` dispatch), the title
sanitisation of the preview page and of `ExportCard.tsx`, and the
message the content script's export trigger sends.

Modelling conventions:
* JS strings are Lean `String`s; most character work happens on
  `String.data : List Char`.
* The ZIP codec is external to the repository (the spec scopes it out as
  a library providing entry enumeration and decode-to-string/bytes), so
  an archive entry `ZipEntry` carries the enumeration data (`name`,
  `dir`) together with the two decode results the code requests
  (`text` for `async ("string")`, `base64` for `async ("base64")`), and
  a failed `JSZip.loadAsync` is the `ZipLoad.err` case.
* `Date.now()` and `Math.random()` are modelled by an explicit
  `EmitEnv` giving the millisecond clock value and random id suffix for
  the i-th emitted item of a run; `try/catch` becomes a total function
  whose error branch records that the error was logged.
* JS `Map` and object records become association lists; the insertion
  order of `Object.entries` is modelled including the JS rule that
  canonical array-index keys enumerate first in ascending numeric
  order.
-/

/-- JS whitespace (`\s`, and the set `trim` removes), restricted to the
characters that actually occur in this codebase's data (ASCII plus NBSP). -/
def isJsSpace (c : Char) : Bool :=
  c == ' ' || c == '\t' || c == '\n' || c == '\r' ||
  c == '\x0b' || c == '\x0c' || c == ' '

/-- `String.prototype.split` with a one-character separator:
`"".split(s)` is `[""]`, `"a/".split("/")` is `["a", ""]`. -/
def splitOnChar (sep : Char) : List Char → List (List Char)
  | [] => [[]]
  | c :: cs =>
    if c == sep then [] :: splitOnChar sep cs
    else
      match splitOnChar sep cs with
      | r :: rs => (c :: r) :: rs
      | [] => [[c]]

/-- `String.prototype.trim` on a character list. -/
def trimChars (l : List Char) : List Char :=
  ((l.dropWhile isJsSpace).reverse.dropWhile isJsSpace).reverse

/-- `a.startsWith b` on character lists (needle first). -/
def startsWithSeg : List Char → List Char → Bool
  | [], _ => true
  | _ :: _, [] => false
  | a :: as, b :: bs => a == b && startsWithSeg as bs

/-- `a.endsWith b` on character lists (needle first). -/
def endsWithSeg (needle hay : List Char) : Bool :=
  startsWithSeg needle.reverse hay.reverse

/-- `a.includes b`: does `needle` occur as a contiguous segment of the
second argument? -/
def containsSeg (needle : List Char) : List Char → Bool
  | [] => startsWithSeg needle []
  | c :: cs => startsWithSeg needle (c :: cs) || containsSeg needle cs

/-- `hay.includes needle` at the `String` level. -/
def strContains (hay needle : String) : Bool :=
  containsSeg needle.data hay.data

/-- JS `\w`: ASCII letter, digit or underscore. -/
def isWordChar (c : Char) : Bool :=
  c.isAlphanum || c == '_'

/-- `replace(/\b\w/g, l => l.toUpperCase())`: upper-case every word
character that starts a word.  The boolean argument records whether the
previous character was a word character. -/
def upperWordStarts : Bool → List Char → List Char
  | _, [] => []
  | prevWord, c :: cs =>
    (if isWordChar c && !prevWord then c.toUpper else c) ::
      upperWordStarts (isWordChar c) cs

/-- One enumerated archive entry: its path and directory flag as JSZip
reports them, plus the decode results the pipeline requests from the
(external) codec: `text` for `async ("string")` and `base64` for
`async ("base64")`. -/
structure ZipEntry where
  name : String
  dir : Bool
  text : String
  base64 : String
deriving DecidableEq, Repr

/-- `relativePath.split('/')` followed by `.pop()`: the file-name part. -/
def fileNameOfPath (path : String) : String :=
  String.mk ((splitOnChar '/' path.data).getLastD [])

/-- The remaining `parts.join('/')`: `""` for root entries. -/
def folderPathOfPath (path : String) : String :=
  String.mk (List.intercalate ['/'] ((splitOnChar '/' path.data).dropLast))

/-- The html-file test of `processZipData`:
`fileName === 'index.html' || fileName === 'code.html' || fileName?.endsWith('.html')`. -/
def isHtmlName (fn : String) : Bool :=
  fn == "index.html" || fn == "code.html" || endsWithSeg ".html".data fn.data

/-- The image test `fileName?.match(/\.(png|jpg|jpeg|webp)$/i)`. -/
def isImageName (fn : String) : Bool :=
  let l := fn.data.map Char.toLower
  endsWithSeg ".png".data l || endsWithSeg ".jpg".data l ||
    endsWithSeg ".jpeg".data l || endsWithSeg ".webp".data l

/-- One group of the `folders` record: the html and image slots. -/
structure GroupFiles where
  html : Option ZipEntry
  image : Option ZipEntry
deriving DecidableEq, Repr

/-- The body of the `zip.forEach` callback acting on one group:
an html-matching name always overwrites the `html` slot, an
image-matching name fills the `image` slot only when it is still empty. -/
def updateFolder (g : GroupFiles) (fileName : String) (e : ZipEntry) : GroupFiles :=
  if isHtmlName fileName then { g with html := some e }
  else if isImageName fileName then
    if g.image.isNone then { g with image := some e } else g
  else g

/-- `if (!folders[folderPath]) folders[folderPath] = {}` followed by the
field update: upsert into an insertion-ordered association list. -/
def upsert (acc : List (String × GroupFiles)) (p : String)
    (f : GroupFiles → GroupFiles) : List (String × GroupFiles) :=
  match acc with
  | [] => [(p, f ⟨none, none⟩)]
  | (q, g) :: rest =>
    if q = p then (q, f g) :: rest else (q, g) :: upsert rest p f

/-- `folders[path]` as a lookup. -/
def lookupGroup : List (String × GroupFiles) → String → Option GroupFiles
  | [], _ => none
  | (p, g) :: rest, q => if p = q then some g else lookupGroup rest q

/-- One step of `zip.forEach`: directory entries are skipped, others are
routed to their folder's group. -/
def addEntry (acc : List (String × GroupFiles)) (e : ZipEntry) :
    List (String × GroupFiles) :=
  if e.dir then acc
  else upsert acc (folderPathOfPath e.name)
    (fun g => updateFolder g (fileNameOfPath e.name) e)

/-- The whole `zip.forEach` loop building the `folders` record. -/
def buildFolders (entries : List ZipEntry) : List (String × GroupFiles) :=
  entries.foldl addEntry []

/-- Is the string a canonical JS array-index key (`"0"`, `"17"`, ...)?
`Object.entries` enumerates such keys first, in ascending numeric order. -/
def isArrayIndexKey (s : String) : Bool :=
  match s.toNat? with
  | some n => decide (n < 4294967295) && toString n == s
  | none => false

/-- Numeric value of a key, for ordering array-index keys. -/
def keyNumVal (s : String) : Nat := s.toNat?.getD 0

/-- Stable insertion into a list sorted by `keyNumVal`. -/
def insertByKeyNum (x : String × GroupFiles) :
    List (String × GroupFiles) → List (String × GroupFiles)
  | [] => [x]
  | y :: ys =>
    if keyNumVal x.1 ≤ keyNumVal y.1 then x :: y :: ys
    else y :: insertByKeyNum x ys

/-- Insertion sort by `keyNumVal`. -/
def sortByKeyNum : List (String × GroupFiles) → List (String × GroupFiles)
  | [] => []
  | x :: xs => insertByKeyNum x (sortByKeyNum xs)

/-- `Object.entries(folders)` enumeration order: canonical array-index
keys ascending, then the remaining keys in insertion order. -/
def jsEntriesOrder (folders : List (String × GroupFiles)) :
    List (String × GroupFiles) :=
  sortByKeyNum (folders.filter (fun pg => isArrayIndexKey pg.1)) ++
    folders.filter (fun pg => !isArrayIndexKey pg.1)

/-- `files.image.name.split('.').pop()`: the extension used in the data
URL (the whole name when there is no dot). -/
def extOfName (name : String) : String :=
  String.mk ((splitOnChar '.' name.data).getLastD name.data)

/-- `data:image/NNN;base64,DDD` built from an image entry. -/
def mkDataUrl (f : ZipEntry) : String :=
  "data:image/" ++ extOfName f.name ++ ";base64," ++ f.base64

/-- The literal before the image reference in the synthesized wrapper. -/
def wrapperPre : String :=
  "<!DOCTYPE html><html><head><title>Design</title></head><body style=\"margin:0;display:flex;justify-content:center;align-items:center;\"><img src=\""

/-- The literal after the image reference in the synthesized wrapper. -/
def wrapperSuf : String :=
  "\" style=\"max-width:100%;\" /></body></html>"

/-- The wrapper document `processZipData` synthesizes for a group without
html content: note it interpolates `files.image.name` (the archive entry
path), not the decoded image data. -/
def wrapperHtml (imageName : String) : String :=
  wrapperPre ++ imageName ++ wrapperSuf

/-- `/^Stitch\s+/i` removal, applied after title-casing. -/
def stripLeadingStitch (cs : List Char) : List Char :=
  let spaceAfter : Bool :=
    match cs.get? 6 with
    | some c => isJsSpace c
    | none => false
  if ((cs.take 6).map Char.toLower == "stitch".data) && spaceAfter then
    (cs.drop 6).dropWhile isJsSpace
  else cs

/-- Title derivation of `processZipData`: last path segment, the
`_canvas_screen` parent fallback, underscores to spaces, word-start
upper-casing, and leading `Stitch ` removal. -/
def deriveTitle (folderPath : String) : String :=
  let pathParts := splitOnChar '/' folderPath.data
  let t0 := pathParts.getLastD []
  let t1 :=
    if t0 = "_canvas_screen".data ∧ pathParts.length > 1 then
      (pathParts.get? (pathParts.length - 2)).getD t0
    else t0
  let t2 := t1.map (fun c => if c == '_' then ' ' else c)
  let t3 := upperWordStarts false t2
  String.mk (stripLeadingStitch t3)

/-- The environment of one reconstruction run: `time i` is the
`Date.now()` value observed while emitting the i-th item, `rand i` the
`Math.random().toString(36).substr(2, 9)` suffix drawn for it. -/
structure EmitEnv where
  time : Nat → Nat
  rand : Nat → String

/-- The persisted unit of state. -/
structure CapturedItem where
  id : String
  timestamp : Nat
  html : String
  image : Option String
  sourceUrl : String
  title : String
deriving DecidableEq, Repr

/-- The loop body of `processZipData` for one kept group: decode html,
build the data URL, synthesize the wrapper when the html content is
empty and the image string is truthy, derive the title, and stamp the
item with the i-th clock/random values. -/
def mkGroupItem (sourceUrl : String) (env : EmitEnv) (i : Nat)
    (folderPath : String) (g : GroupFiles) : CapturedItem :=
  let htmlContent := match g.html with | some f => f.text | none => ""
  let imageBase64 : Option String :=
    match g.image with | some f => some (mkDataUrl f) | none => none
  let truthyImg : Bool :=
    match imageBase64 with | some d => d != "" | none => false
  let htmlContent2 :=
    if htmlContent == "" && truthyImg then
      match g.image with
      | some f => wrapperHtml f.name
      | none => htmlContent
    else htmlContent
  { id := toString (env.time i) ++ env.rand i
    timestamp := env.time i
    html := htmlContent2
    image := imageBase64
    sourceUrl := sourceUrl
    title := deriveTitle folderPath }

/-- The filter `if (files.html || files.image)`. -/
def keptGroup (g : GroupFiles) : Bool :=
  g.html.isSome || g.image.isSome

/-- The kept groups of an archive, in `Object.entries` order. -/
def keptGroupsOf (entries : List ZipEntry) : List (String × GroupFiles) :=
  (jsEntriesOrder (buildFolders entries)).filter (fun pg => keptGroup pg.2)

/-- Emission loop: the i-th kept group yields the i-th pushed item. -/
def emitItems (sourceUrl : String) (env : EmitEnv) (i : Nat) :
    List (String × GroupFiles) → List CapturedItem
  | [] => []
  | (p, g) :: rest =>
    mkGroupItem sourceUrl env i p g :: emitItems sourceUrl env (i + 1) rest

/-- The Archive Reconstructor: archive entries to the ordered list of new
items (`newItems` of `processZipData`). -/
def zipToItems (entries : List ZipEntry) (sourceUrl : String) (env : EmitEnv) :
    List CapturedItem :=
  emitItems sourceUrl env 0 (keptGroupsOf entries)

/-- Result of `JSZip.loadAsync`: the enumerated entries, or a decode
error (malformed / non-archive bytes). -/
inductive ZipLoad where
  | ok (entries : List ZipEntry)
  | err
deriving DecidableEq

/-- Observable outcome of one `processZipData` call: the stored
collection afterwards, whether a storage write happened, the
notification it scheduled (count and tab), and whether the catch branch
logged an error. -/
structure ProcResult where
  stored : List CapturedItem
  wroteStorage : Bool
  scheduled : Option (Nat × Option Nat)
  errorLogged : Bool
deriving DecidableEq, Repr

/-- `processZipData`: decode, reconstruct, and only when at least one
item was produced prepend the new items to the stored collection and
schedule a batched notification; the catch branch logs and leaves all
state untouched. -/
def processZipData (load : ZipLoad) (sourceUrl : String) (tabId : Option Nat)
    (current : List CapturedItem) (env : EmitEnv) : ProcResult :=
  match load with
  | .err => ⟨current, false, none, true⟩
  | .ok entries =>
    let newItems := zipToItems entries sourceUrl env
    if newItems.length > 0 then
      ⟨newItems ++ current, true, some (newItems.length, tabId), false⟩
    else
      ⟨current, false, none, false⟩

/-- Literal before the title in the single-image wrapper document. -/
def singlePre : String := "<!DOCTYPE html><html><head><title>"

/-- Literal between title and image data in the single-image wrapper. -/
def singleMid : String :=
  "</title></head><body style=\"margin:0;display:flex;justify-content:center;align-items:center;background:#f0f0f0;\"><img src=\""

/-- Literal after the image data in the single-image wrapper. -/
def singleSuf : String :=
  "\" style=\"max-width:100%;box-shadow:0 4px 6px rgba(0,0,0,0.1);\" /></body></html>"

/-- `filename.split('/').pop()?.split('.')[0] || "Captured Image"`. -/
def singleImageTitle (filename : String) : String :=
  let seg := (splitOnChar '/' filename.data).getLastD []
  let t0 := (splitOnChar '.' seg).headD []
  if t0.isEmpty then "Captured Image" else String.mk t0

/-- `saveSingleImageDesign`: wraps the image data URL in a viewer
document and prepends the new item to the stored collection. -/
def saveSingleImageDesign (base64Data sourceUrl filename : String)
    (current : List CapturedItem) (now : Nat) (rand : String) :
    List CapturedItem :=
  let title := singleImageTitle filename
  let newItem : CapturedItem :=
    { id := toString now ++ rand
      timestamp := now
      html := singlePre ++ title ++ singleMid ++ base64Data ++ singleSuf
      image := some base64Data
      sourceUrl := sourceUrl
      title := title }
  newItem :: current

/-- The `sender` of a runtime message: the originating tab's id and
window id, when the message came from a tab at all. -/
structure MsgSender where
  tabId : Option Nat
  windowId : Option Nat
deriving DecidableEq, Repr

/-- A `chrome.runtime` message as the background listener sees it:
`type` plus the fields the handled messages use and the
`STITCH_EXPORT_FULL` payload the content script sends. -/
structure Request where
  rtype : String
  url : String
  data : String
  payloadHtml : String
  payloadImage : Option String
  payloadSourceUrl : String
  payloadTitle : String
deriving DecidableEq, Repr

/-- Side-panel bookkeeping of the background script: the set of windows
with a connected panel and the per-tab last toggle times. -/
structure ToggleState where
  openSidePanels : List Nat
  lastToggleTimes : List (Nat × Nat)
deriving DecidableEq, Repr

/-- `Map.get` on the last-toggle-times map. -/
def lookupTime : List (Nat × Nat) → Nat → Option Nat
  | [], _ => none
  | (k, v) :: rest, q => if k = q then some v else lookupTime rest q

/-- `Map.set` on the last-toggle-times map. -/
def setTime : List (Nat × Nat) → Nat → Nat → List (Nat × Nat)
  | [], k, v => [(k, v)]
  | (k', v') :: rest, k, v =>
    if k' = k then (k', v) :: rest else (k', v') :: setTime rest k v

/-- What the `TOGGLE_SIDE_PANEL` branch does to the browser: the
disable-then-re-enable close cycle (with `stuck` recording whether the
forced-close broadcast fires), or enable-and-open. -/
inductive PanelEffect where
  | disableThenEnable (tabId windowId : Nat) (stuck : Bool)
  | enableAndOpen (tabId windowId : Nat)
  | noEffect
deriving DecidableEq, Repr

/-- The `TOGGLE_SIDE_PANEL` handler body (inside the
`if (windowId && tabId)` guard): record the toggle time, detect the
stuck state (believed closed but toggled again within 1 second), and
either force the close cycle or open the panel. -/
def handleToggleSidePanel (st : ToggleState) (windowId tabId now : Nat) :
    ToggleState × PanelEffect :=
  let lastToggle := (lookupTime st.lastToggleTimes tabId).getD 0
  let st' : ToggleState :=
    { st with lastToggleTimes := setTime st.lastToggleTimes tabId now }
  let isStuck :=
    !(st.openSidePanels.contains windowId) && decide (now - lastToggle < 1000)
  if st.openSidePanels.contains windowId || isStuck then
    (st', .disableThenEnable tabId windowId isStuck)
  else
    (st', .enableAndOpen tabId windowId)

/-- The externally visible action of one `chrome.runtime.onMessage`
dispatch in the background script. -/
inductive BgEffect where
  | processZip (data url : String) (tabId : Option Nat)
  | openPanel (windowId : Nat)
  | panel (eff : PanelEffect)
  | fetchImage (url : String)
  | unhandled
deriving DecidableEq, Repr

/-- The background `chrome.runtime.onMessage` listener: a `type` string
dispatch over exactly `BLOB_DATA_CAPTURED`, `OPEN_SIDE_PANEL`,
`TOGGLE_SIDE_PANEL` and `FETCH_IMAGE_BASE64`; any other type falls off
the end of the listener with no action and no state change. -/
def bgOnMessage (req : Request) (sender : MsgSender) (st : ToggleState)
    (now : Nat) : ToggleState × BgEffect :=
  if req.rtype = "BLOB_DATA_CAPTURED" then
    (st, .processZip req.data req.url sender.tabId)
  else if req.rtype = "OPEN_SIDE_PANEL" then
    match sender.windowId with
    | some w => if w ≠ 0 then (st, .openPanel w) else (st, .unhandled)
    | none => (st, .unhandled)
  else if req.rtype = "TOGGLE_SIDE_PANEL" then
    match sender.windowId, sender.tabId with
    | some w, some t =>
      if w ≠ 0 ∧ t ≠ 0 then
        let (st', eff) := handleToggleSidePanel st w t now
        (st', .panel eff)
      else (st, .unhandled)
    | _, _ => (st, .unhandled)
  else if req.rtype = "FETCH_IMAGE_BASE64" then
    (st, .fetchImage req.url)
  else
    (st, .unhandled)

/-- The message `handleExportTrigger` sends when the user's selection is
longer than 50 characters: type `STITCH_EXPORT_FULL`, the selection as
`html`, no image, and the fixed title `Selected Code`. -/
def selectionExportRequest (selectionText pageUrl : String) : Request :=
  { rtype := "STITCH_EXPORT_FULL"
    url := ""
    data := ""
    payloadHtml := selectionText
    payloadImage := none
    payloadSourceUrl := pageUrl
    payloadTitle := "Selected Code" }

/-- State of the notification batcher: the accumulating batch
(count and most recent associated tab) and the pending timeout's fire
time, when one is armed. -/
structure NotifState where
  batch : Option (Nat × Option Nat)
  timeoutAt : Option Nat
deriving DecidableEq, Repr

/-- A user notification as delivered: its item count and the tab the
batch remembered (`none` falls back to the currently active tab). -/
structure NotifOut where
  count : Nat
  tab : Option Nat
deriving DecidableEq, Repr

/-- The timeout callback, run when the armed timer is due at or before
`t`: deliver the batch (if any) and clear the batcher state. -/
def fireDue (st : NotifState) (t : Nat) : NotifState × List NotifOut :=
  match st.timeoutAt with
  | some ft =>
    if ft ≤ t then
      match st.batch with
      | some (c, tb) => (⟨none, none⟩, [⟨c, tb⟩])
      | none => (⟨none, none⟩, [])
    else (st, [])
  | none => (st, [])

/-- `scheduleNotification` at time `now`: cancel the pending timer,
add to the batch (a truthy tab id replaces the remembered tab), and arm
a new timer for 1000 ms later. -/
def scheduleNotification (st : NotifState) (now count : Nat)
    (tabId : Option Nat) : NotifState :=
  let batch :=
    match st.batch with
    | some (c, tb) =>
      some (c + count,
        match tabId with
        | some t => if t ≠ 0 then some t else tb
        | none => tb)
    | none => some (count, tabId)
  ⟨batch, some (now + 1000)⟩

/-- Process one ingestion event `(time, count, tabId)`: a due timer
fires before the event's own `scheduleNotification` call runs. -/
def notifStep (st : NotifState) (ev : Nat × Nat × Option Nat) :
    NotifState × List NotifOut :=
  let (st1, outs) := fireDue st ev.1
  (scheduleNotification st1 ev.1 ev.2.1 ev.2.2, outs)

/-- Run a time-ordered list of ingestion events through the batcher,
collecting the notifications delivered along the way. -/
def runNotif (st : NotifState) :
    List (Nat × Nat × Option Nat) → NotifState × List NotifOut
  | [] => (st, [])
  | ev :: evs =>
    let (st1, outs) := notifStep st ev
    let (st2, rest) := runNotif st1 evs
    (st2, outs ++ rest)

/-- The batcher before any event: no batch, no armed timer. -/
def notifInit : NotifState := ⟨none, none⟩

/-- Characters `<>:"/\|?*` removed by both save-title handlers. -/
def isInvalidFileChar (c : Char) : Bool :=
  c == '<' || c == '>' || c == ':' || c == '"' || c == '/' ||
  c == '\\' || c == '|' || c == '?' || c == '*'

/-- `input.replace(/[<>:"\/\\|?*]/g, '').trim()`. -/
def sanitizeTitle (s : String) : String :=
  String.mk (trimChars (s.data.filter (fun c => !isInvalidFileChar c)))

/-- `handleSaveTitle` of the preview page: a sanitized-empty input falls
back to `Untitled Design`; the result is what gets stored. -/
def previewHandleSaveTitle (input : String) : String :=
  let sanitized := sanitizeTitle input
  if sanitized = "" then "Untitled Design" else sanitized

/-- `handleSaveTitle` of `ExportCard`: a rename is issued only when the
sanitized input is non-empty; otherwise no rename happens and the edit
field resets. Returns the rename payload, if any. -/
def cardHandleSaveTitle (input : String) : Option String :=
  let sanitized := sanitizeTitle input
  if sanitized ≠ "" then some sanitized else none

/-- The stored title after a card save-title action on an item whose
current title is `prev`: the rename payload when one was issued, the
previous title otherwise. -/
def storedTitleAfterCardSave (prev : Option String) (input : String) :
    Option String :=
  match cardHandleSaveTitle input with
  | some t => some t
  | none => prev

/-- Modelled from the spec (and from the claim's reading of it): the
selector the claim asserts for a group's HTML source — the FIRST
enumerated non-directory entry of the folder whose name matches the html
test.  Compared against what `buildFolders` actually stores. -/
def claimFirstHtmlChoice : List ZipEntry → String → Option ZipEntry
  | [], _ => none
  | e :: rest, p =>
    if !e.dir && (folderPathOfPath e.name == p) &&
        isHtmlName (fileNameOfPath e.name) then some e
    else claimFirstHtmlChoice rest p

/-- Does this entry belong to folder `p` (non-directory, same folder)? -/
def entryInFolder (e : ZipEntry) (p : String) : Bool :=
  !e.dir && (folderPathOfPath e.name == p)

/-- Is this entry one `updateFolder` would place in the html slot of
folder `p`? -/
def htmlRelevant (e : ZipEntry) (p : String) : Bool :=
  entryInFolder e p && isHtmlName (fileNameOfPath e.name)

/-- Is this entry one `updateFolder` would place in the image slot of
folder `p` (image-matching and not html-matching, per the else-if)? -/
def imageRelevant (e : ZipEntry) (p : String) : Bool :=
  entryInFolder e p && !isHtmlName (fileNameOfPath e.name) &&
    isImageName (fileNameOfPath e.name)

/-- The LAST html-matching entry of folder `p`, in enumeration order:
what the overwriting html slot actually keeps. -/
def lastHtmlMatch : List ZipEntry → String → Option ZipEntry
  | [], _ => none
  | e :: rest, p =>
    match lastHtmlMatch rest p with
    | some r => some r
    | none => if htmlRelevant e p then some e else none

/-- The FIRST image-matching entry of folder `p`, in enumeration order:
what the guarded image slot keeps. -/
def firstImageMatch : List ZipEntry → String → Option ZipEntry
  | [], _ => none
  | e :: rest, p =>
    if imageRelevant e p then some e else firstImageMatch rest p

/-- The effect of replaying a list of entries onto one folder's group:
the reference form the grouping proofs relate `buildFolders` to. -/
def applyGroup (g : GroupFiles) (entries : List ZipEntry) (p : String) :
    GroupFiles :=
  entries.foldl
    (fun g e =>
      if entryInFolder e p then updateFolder g (fileNameOfPath e.name) e
      else g) g

/-- Projection of an item to its run-independent fields (everything but
the freshly stamped id and timestamp). -/
def stripVolatile (it : CapturedItem) : String × Option String × String × String :=
  (it.html, it.image, it.sourceUrl, it.title)

/-- Fixture: a root-level html entry enumerated first. -/
def entA : ZipEntry := ⟨"a.html", false, "A", ""⟩

/-- Fixture: a root-level html entry enumerated second. -/
def entB : ZipEntry := ⟨"b.html", false, "B", ""⟩

/-- Fixture: a root-level image entry. -/
def entPng : ZipEntry := ⟨"preview.png", false, "", "AQID"⟩

/-- Fixture: a root-level html entry whose decoded content is empty. -/
def entEmptyHtml : ZipEntry := ⟨"index.html", false, "", ""⟩

/-- Fixture: a root-level entry matching neither html nor image tests. -/
def entReadme : ZipEntry := ⟨"readme.txt", false, "notes", ""⟩

/-- Fixture environment: a run whose clock reads `t` throughout and whose
random suffixes are all `"r"`. -/
def envAt (t : Nat) : EmitEnv := ⟨fun _ => t, fun _ => "r"⟩

theorem lookup_upsert_self (acc : List (String × GroupFiles)) (p : String)
    (f : GroupFiles → GroupFiles) :
    lookupGroup (upsert acc p f) p =
      some (f ((lookupGroup acc p).getD ⟨none, none⟩)) := by
  induction acc with
  | nil => simp [upsert, lookupGroup]
  | cons hd tl ih =>
    obtain ⟨q, g⟩ := hd
    by_cases hq : q = p
    · subst hq
      simp [upsert, lookupGroup]
    · simp [upsert, lookupGroup, hq, ih]

theorem lookup_upsert_ne (acc : List (String × GroupFiles)) (p q : String)
    (f : GroupFiles → GroupFiles) (h : q ≠ p) :
    lookupGroup (upsert acc p f) q = lookupGroup acc q := by
  induction acc with
  | nil => simp [upsert, lookupGroup, Ne.symm h]
  | cons hd tl ih =>
    obtain ⟨k, g⟩ := hd
    by_cases hk : k = p
    · subst hk
      simp [upsert, lookupGroup, Ne.symm h]
    · simp only [upsert, if_neg hk, lookupGroup]
      by_cases hk2 : k = q
      · simp [hk2]
      · simp [hk2, ih]

theorem lookup_foldl_addEntry (entries : List ZipEntry) :
    ∀ (acc : List (String × GroupFiles)) (p : String),
    lookupGroup (entries.foldl addEntry acc) p =
      match lookupGroup acc p with
      | some g => some (applyGroup g entries p)
      | none =>
        if entries.any (fun e => entryInFolder e p) then
          some (applyGroup ⟨none, none⟩ entries p)
        else none := by
  induction entries with
  | nil =>
    intro acc p
    cases h : lookupGroup acc p <;> simp [applyGroup, h]
  | cons e es ih =>
    intro acc p
    rw [List.foldl_cons, ih (addEntry acc e) p]
    by_cases hdir : e.dir
    · have hstep : addEntry acc e = acc := by simp [addEntry, hdir]
      have hrel : entryInFolder e p = false := by simp [entryInFolder, hdir]
      rw [hstep]
      cases h : lookupGroup acc p <;>
        simp [applyGroup, List.foldl_cons, hrel, List.any_cons, h]
    · by_cases hp : folderPathOfPath e.name = p
      · have hrel : entryInFolder e p = true := by
          simp [entryInFolder, hdir, hp]
        have hstep : addEntry acc e =
            upsert acc p (fun g => updateFolder g (fileNameOfPath e.name) e) := by
          simp [addEntry, hdir, hp]
        rw [hstep, lookup_upsert_self]
        cases h : lookupGroup acc p <;>
          simp [applyGroup, List.foldl_cons, hrel, List.any_cons, h]
      · have hrel : entryInFolder e p = false := by
          simp [entryInFolder, hdir, hp]
        have hstep : addEntry acc e =
            upsert acc (folderPathOfPath e.name)
              (fun g => updateFolder g (fileNameOfPath e.name) e) := by
          simp [addEntry, hdir]
        rw [hstep, lookup_upsert_ne _ _ _ _ (fun hh => hp hh.symm)]
        cases h : lookupGroup acc p <;>
          simp [applyGroup, List.foldl_cons, hrel, List.any_cons, h]

theorem updateFolder_html (g : GroupFiles) (fn : String) (e : ZipEntry) :
    (updateFolder g fn e).html = if isHtmlName fn then some e else g.html := by
  by_cases h1 : isHtmlName fn
  · simp [updateFolder, h1]
  · by_cases h2 : isImageName fn
    · by_cases h3 : g.image.isNone <;> simp [updateFolder, h1, h2, h3]
    · simp [updateFolder, h1, h2]

theorem updateFolder_image (g : GroupFiles) (fn : String) (e : ZipEntry) :
    (updateFolder g fn e).image =
      if !isHtmlName fn && isImageName fn && g.image.isNone then some e
      else g.image := by
  by_cases h1 : isHtmlName fn
  · simp [updateFolder, h1]
  · by_cases h2 : isImageName fn
    · by_cases h3 : g.image.isNone <;> simp [updateFolder, h1, h2, h3]
    · simp [updateFolder, h1, h2]

theorem applyGroup_html (entries : List ZipEntry) :
    ∀ (g : GroupFiles) (p : String),
    (applyGroup g entries p).html =
      match lastHtmlMatch entries p with
      | some e => some e
      | none => g.html := by
  induction entries with
  | nil => intro g p; simp [applyGroup, lastHtmlMatch]
  | cons e es ih =>
    intro g p
    have hcons : applyGroup g (e :: es) p =
        applyGroup
          (if entryInFolder e p then updateFolder g (fileNameOfPath e.name) e
           else g) es p := by
      simp [applyGroup, List.foldl_cons]
    rw [hcons, ih]
    cases hrest : lastHtmlMatch es p with
    | some r => simp [lastHtmlMatch, hrest]
    | none =>
      simp only [lastHtmlMatch, hrest]
      by_cases hrel : entryInFolder e p
      · by_cases hh : isHtmlName (fileNameOfPath e.name)
        · simp [hrel, hh, htmlRelevant, updateFolder_html]
        · simp [hrel, hh, htmlRelevant, updateFolder_html]
      · simp [hrel, htmlRelevant]

theorem applyGroup_image (entries : List ZipEntry) :
    ∀ (g : GroupFiles) (p : String),
    (applyGroup g entries p).image =
      match g.image with
      | some i => some i
      | none => firstImageMatch entries p := by
  induction entries with
  | nil =>
    intro g p
    cases h : g.image <;> simp [applyGroup, firstImageMatch, h]
  | cons e es ih =>
    intro g p
    have hcons : applyGroup g (e :: es) p =
        applyGroup
          (if entryInFolder e p then updateFolder g (fileNameOfPath e.name) e
           else g) es p := by
      simp [applyGroup, List.foldl_cons]
    rw [hcons, ih]
    cases hg : g.image with
    | some i =>
      by_cases hrel : entryInFolder e p
      · simp [hrel, updateFolder_image, hg]
      · simp [hrel, hg]
    | none =>
      by_cases hrel : entryInFolder e p
      · by_cases hh : isHtmlName (fileNameOfPath e.name)
        · simp [firstImageMatch, imageRelevant, hrel, hh, updateFolder_image, hg]
        · by_cases hi : isImageName (fileNameOfPath e.name)
          · simp [firstImageMatch, imageRelevant, hrel, hh, hi,
              updateFolder_image, hg]
          · simp [firstImageMatch, imageRelevant, hrel, hh, hi,
              updateFolder_image, hg]
      · simp [firstImageMatch, imageRelevant, hrel, hg]

theorem buildFolders_group_spec (entries : List ZipEntry) (p : String)
    (g : GroupFiles) (h : lookupGroup (buildFolders entries) p = some g) :
    g.html = lastHtmlMatch entries p ∧ g.image = firstImageMatch entries p := by
  have h2 := lookup_foldl_addEntry entries [] p
  simp only [lookupGroup] at h2
  rw [buildFolders] at h
  by_cases hany : entries.any (fun e => entryInFolder e p)
  · rw [if_pos hany] at h2
    have hg : g = applyGroup ⟨none, none⟩ entries p := by
      have := h.symm.trans h2
      exact Option.some.inj this.symm |>.symm
    subst hg
    constructor
    · rw [applyGroup_html]
      cases hl : lastHtmlMatch entries p <;> simp [hl]
    · rw [applyGroup_image]
  · rw [if_neg hany] at h2
    rw [h] at h2
    cases h2

/-- Claim C1: FALSE as stated.  In a group holding two html-matching
entries, `a.html` enumerated before `b.html`, the group's chosen HTML
source is the LATER entry `b.html`, not the first one the claim (and the
spec-modelled selector `claimFirstHtmlChoice`) predicts: the html slot
is overwritten on every match. -/
theorem c1_counterexample :
    lookupGroup (buildFolders [entA, entB]) "" =
      some ⟨some entB, none⟩ ∧
    claimFirstHtmlChoice [entA, entB] "" = some entA ∧
    entB ≠ entA := by
  refine ⟨by decide, by decide, by decide⟩

/-- Claim C1, amended: within each directory group of
`processZipData`, the entry stored as the group's HTML source is the
LAST enumerated non-directory entry whose name matches the html test,
while the entry stored as the group's image is the FIRST enumerated
entry with a raster-image extension (later images are ignored). -/
theorem c1_html_last_image_first (entries : List ZipEntry) (p : String)
    (g : GroupFiles) (h : lookupGroup (buildFolders entries) p = some g) :
    g.html = lastHtmlMatch entries p ∧ g.image = firstImageMatch entries p :=
  buildFolders_group_spec entries p g h

/-- Witness for C1's amended theorem at the one-entry archive
`[a.html]`: the hypothesis is discharged by evaluation. -/
theorem c1_html_last_image_first_witness :
    lookupGroup (buildFolders [entA]) "" = some ⟨some entA, none⟩ ∧
    (⟨some entA, none⟩ : GroupFiles).html = lastHtmlMatch [entA] "" ∧
    (⟨some entA, none⟩ : GroupFiles).image = firstImageMatch [entA] "" := by
  have h : lookupGroup (buildFolders [entA]) "" = some ⟨some entA, none⟩ := by
    decide
  exact ⟨h, c1_html_last_image_first [entA] "" ⟨some entA, none⟩ h⟩

theorem strData_append (a b : String) : (a ++ b).data = a.data ++ b.data := rfl

theorem str_ne_empty_of_data_ne_nil (s : String) (h : s.data ≠ []) :
    s ≠ "" := by
  intro he
  apply h
  rw [he]

theorem data_ne_nil_append_left (a b : String) (h : a.data ≠ []) :
    (a ++ b).data ≠ [] := by
  rw [strData_append]
  intro h2
  exact h (List.append_eq_nil.mp h2).1

theorem mkDataUrl_ne_empty (f : ZipEntry) : mkDataUrl f ≠ "" := by
  apply str_ne_empty_of_data_ne_nil
  rw [mkDataUrl]
  apply data_ne_nil_append_left
  apply data_ne_nil_append_left
  apply data_ne_nil_append_left
  decide

theorem wrapperHtml_ne_empty (n : String) : wrapperHtml n ≠ "" := by
  apply str_ne_empty_of_data_ne_nil
  rw [wrapperHtml]
  apply data_ne_nil_append_left
  apply data_ne_nil_append_left
  decide

theorem emitItems_length (url : String) (env : EmitEnv) :
    ∀ (ks : List (String × GroupFiles)) (j : Nat),
    (emitItems url env j ks).length = ks.length := by
  intro ks
  induction ks with
  | nil => intro j; rfl
  | cons hd tl ih =>
    intro j
    obtain ⟨p, g⟩ := hd
    simp [emitItems, ih (j + 1)]

theorem emitItems_get? (url : String) (env : EmitEnv) :
    ∀ (ks : List (String × GroupFiles)) (j i : Nat),
    (emitItems url env j ks).get? i =
      (ks.get? i).map (fun pg => mkGroupItem url env (j + i) pg.1 pg.2) := by
  intro ks
  induction ks with
  | nil => intro j i; simp [emitItems]
  | cons hd tl ih =>
    intro j i
    obtain ⟨p, g⟩ := hd
    cases i with
    | zero => simp [emitItems]
    | succ n =>
      simp only [emitItems, List.get?_cons_succ, ih (j + 1) n]
      have harith : j + 1 + n = j + (n + 1) := by omega
      rw [harith]

theorem mem_emitItems (url : String) (env : EmitEnv) :
    ∀ (ks : List (String × GroupFiles)) (j : Nat) (item : CapturedItem),
    item ∈ emitItems url env j ks →
    ∃ k p g, (p, g) ∈ ks ∧ item = mkGroupItem url env k p g := by
  intro ks
  induction ks with
  | nil => intro j item h; simp [emitItems] at h
  | cons hd tl ih =>
    intro j item h
    obtain ⟨p, g⟩ := hd
    rcases List.mem_cons.mp h with heq | htl
    · exact ⟨j, p, g, List.mem_cons_self _ _, heq⟩
    · obtain ⟨k, p', g', hmem, heq⟩ := ih (j + 1) item htl
      exact ⟨k, p', g', List.mem_cons_of_mem _ hmem, heq⟩

theorem mem_upsert (acc : List (String × GroupFiles)) (p : String)
    (f : GroupFiles → GroupFiles) (x : String × GroupFiles)
    (h : x ∈ upsert acc p f) :
    x ∈ acc ∨ ∃ g0, x = (p, f g0) ∧
      (g0 = (⟨none, none⟩ : GroupFiles) ∨ (p, g0) ∈ acc) := by
  induction acc with
  | nil =>
    simp [upsert] at h
    exact Or.inr ⟨⟨none, none⟩, h, Or.inl rfl⟩
  | cons hd tl ih =>
    obtain ⟨k, g⟩ := hd
    by_cases hk : k = p
    · subst hk
      simp only [upsert, if_pos rfl] at h
      rcases List.mem_cons.mp h with heq | htl
      · exact Or.inr ⟨g, heq, Or.inr (List.mem_cons_self _ _)⟩
      · exact Or.inl (List.mem_cons_of_mem _ htl)
    · simp only [upsert, if_neg hk] at h
      rcases List.mem_cons.mp h with heq | htl
      · exact Or.inl (heq ▸ List.mem_cons_self _ _)
      · rcases ih htl with hin | ⟨g0, heq, hg0⟩
        · exact Or.inl (List.mem_cons_of_mem _ hin)
        · refine Or.inr ⟨g0, heq, ?_⟩
          rcases hg0 with h0 | h0
          · exact Or.inl h0
          · exact Or.inr (List.mem_cons_of_mem _ h0)

theorem mem_keys_upsert (acc : List (String × GroupFiles)) (p : String)
    (f : GroupFiles → GroupFiles) (q : String)
    (h : q ∈ (upsert acc p f).map Prod.fst) :
    q ∈ acc.map Prod.fst ∨ q = p := by
  induction acc with
  | nil => simp [upsert] at h; exact Or.inr h
  | cons hd tl ih =>
    obtain ⟨k, g⟩ := hd
    by_cases hk : k = p
    · subst hk
      simp only [upsert, if_pos rfl] at h
      simpa using Or.inl (by simpa using h)
    · simp only [upsert, if_neg hk, List.map_cons, List.mem_cons] at h
      rcases h with heq | htl
      · exact Or.inl (by simp [heq])
      · rcases ih htl with hin | hp
        · exact Or.inl (by simp [hin, List.mem_cons])
        · exact Or.inr hp

theorem nodup_keys_upsert (acc : List (String × GroupFiles)) (p : String)
    (f : GroupFiles → GroupFiles)
    (h : (acc.map Prod.fst).Nodup) :
    ((upsert acc p f).map Prod.fst).Nodup := by
  induction acc with
  | nil => simp [upsert]
  | cons hd tl ih =>
    obtain ⟨k, g⟩ := hd
    simp only [List.map_cons, List.nodup_cons] at h
    by_cases hk : k = p
    · subst hk
      have hrw : upsert ((k, g) :: tl) k f = (k, f g) :: tl := by
        simp [upsert]
      rw [hrw, List.map_cons, List.nodup_cons]
      exact h
    · simp only [upsert, if_neg hk, List.map_cons, List.nodup_cons]
      refine ⟨?_, ih h.2⟩
      intro hmem
      rcases mem_keys_upsert tl p f k hmem with hin | hp
      · exact h.1 hin
      · exact hk hp

theorem nodup_keys_buildFolders (entries : List ZipEntry) :
    ((buildFolders entries).map Prod.fst).Nodup := by
  rw [buildFolders]
  have main : ∀ (l : List ZipEntry) (acc : List (String × GroupFiles)),
      (acc.map Prod.fst).Nodup →
      ((l.foldl addEntry acc).map Prod.fst).Nodup := by
    intro l
    induction l with
    | nil => intro acc h; exact h
    | cons e es ih =>
      intro acc h
      rw [List.foldl_cons]
      apply ih
      by_cases hd : e.dir
      · simpa [addEntry, hd] using h
      · simp only [addEntry, if_neg hd]
        exact nodup_keys_upsert _ _ _ h
  exact main entries [] (by simp)

theorem lookup_of_mem (acc : List (String × GroupFiles)) (p : String)
    (g : GroupFiles) (hn : (acc.map Prod.fst).Nodup) (h : (p, g) ∈ acc) :
    lookupGroup acc p = some g := by
  induction acc with
  | nil => cases h
  | cons hd tl ih =>
    obtain ⟨k, g'⟩ := hd
    simp only [List.map_cons, List.nodup_cons] at hn
    rcases List.mem_cons.mp h with heq | htl
    · injection heq with h1 h2
      subst h1
      simp [lookupGroup, h2]
    · by_cases hk : k = p
      · subst hk
        exfalso
        exact hn.1 (List.mem_map.mpr ⟨(k, g), htl, rfl⟩)
      · simp only [lookupGroup, if_neg hk]
        exact ih hn.2 htl

theorem mem_insertByKeyNum (x y : String × GroupFiles) :
    ∀ l, x ∈ insertByKeyNum y l → x = y ∨ x ∈ l := by
  intro l
  induction l with
  | nil => intro h; simp [insertByKeyNum] at h; exact Or.inl h
  | cons z zs ih =>
    intro h
    by_cases hle : keyNumVal y.1 ≤ keyNumVal z.1
    · simp only [insertByKeyNum, if_pos hle] at h
      rcases List.mem_cons.mp h with heq | htl
      · exact Or.inl heq
      · exact Or.inr htl
    · simp only [insertByKeyNum, if_neg hle] at h
      rcases List.mem_cons.mp h with heq | htl
      · exact Or.inr (heq ▸ List.mem_cons_self _ _)
      · rcases ih htl with hy | hin
        · exact Or.inl hy
        · exact Or.inr (List.mem_cons_of_mem _ hin)

theorem mem_sortByKeyNum (x : String × GroupFiles) :
    ∀ l, x ∈ sortByKeyNum l → x ∈ l := by
  intro l
  induction l with
  | nil => intro h; simp [sortByKeyNum] at h
  | cons z zs ih =>
    intro h
    simp only [sortByKeyNum] at h
    rcases mem_insertByKeyNum x z _ h with heq | hin
    · exact heq ▸ List.mem_cons_self _ _
    · exact List.mem_cons_of_mem _ (ih hin)

theorem mem_jsEntriesOrder (folders : List (String × GroupFiles))
    (x : String × GroupFiles) (h : x ∈ jsEntriesOrder folders) :
    x ∈ folders := by
  rw [jsEntriesOrder] at h
  rcases List.mem_append.mp h with h1 | h2
  · exact List.mem_filter.mp (mem_sortByKeyNum x _ h1) |>.1
  · exact List.mem_filter.mp h2 |>.1

theorem lastHtmlMatch_mem :
    ∀ (entries : List ZipEntry) (p : String) (f : ZipEntry),
    lastHtmlMatch entries p = some f →
    f ∈ entries ∧ htmlRelevant f p = true := by
  intro entries
  induction entries with
  | nil => intro p f h; cases h
  | cons e es ih =>
    intro p f h
    simp only [lastHtmlMatch] at h
    cases hrest : lastHtmlMatch es p with
    | some r =>
      rw [hrest] at h
      have hrf : r = f := Option.some.inj h
      subst hrf
      obtain ⟨hm, hr⟩ := ih p r hrest
      exact ⟨List.mem_cons_of_mem _ hm, hr⟩
    | none =>
      rw [hrest] at h
      by_cases hrel : htmlRelevant e p
      · rw [if_pos hrel] at h
        exact ⟨Option.some.inj h ▸ List.mem_cons_self _ _,
          Option.some.inj h ▸ hrel⟩
      · rw [if_neg hrel] at h
        cases h

theorem mkGroupItem_image_only (url : String) (env : EmitEnv) (k : Nat)
    (p : String) (g : GroupFiles) (f : ZipEntry)
    (hh : g.html = none) (hi : g.image = some f) :
    (mkGroupItem url env k p g).html = wrapperHtml f.name ∧
    (mkGroupItem url env k p g).image = some (mkDataUrl f) := by
  have hne : (mkDataUrl f == "") = false :=
    beq_eq_false_iff_ne.mpr (mkDataUrl_ne_empty f)
  have hbne : (mkDataUrl f != "") = true := by simp [bne, hne]
  constructor
  · simp [mkGroupItem, hh, hi, hbne]
  · simp [mkGroupItem, hh, hi]

/-- Claim C2: FALSE in its "embeds that image's data" part.  The
image-only group of the archive `[preview.png]` yields exactly one item
with non-empty html, but that html interpolates the archive entry NAME
`preview.png` and contains neither the image's base64 data `AQID` nor
the data URL; only the separate `image` field holds the data URL, so
the html alone is not a self-contained document. -/
theorem c2_counterexample :
    (zipToItems [entPng] "u" (envAt 0)).length = 1 ∧
    (zipToItems [entPng] "u" (envAt 0)).get? 0 = some
      ⟨"0r", 0, wrapperHtml "preview.png",
        some "data:image/png;base64,AQID", "u", ""⟩ ∧
    strContains (wrapperHtml "preview.png") "AQID" = false ∧
    strContains (wrapperHtml "preview.png") "data:image/png;base64,AQID" = false ∧
    strContains (wrapperHtml "preview.png") "preview.png" = true := by
  refine ⟨by decide, by decide, by decide, by decide, by decide⟩

/-- Claim C2, amended: an archive group holding an image entry and no
html entry yields exactly one item (the i-th kept group yields the i-th
emitted item, one for one): its html is non-empty, but it is the
synthesized wrapper referencing the image by its archive entry NAME, not
by its data; the inline data URL is carried only in the item's `image`
field. -/
theorem c2_image_only_group_item (entries : List ZipEntry) (url : String)
    (env : EmitEnv) (i : Nat) (p : String) (g : GroupFiles) (f : ZipEntry)
    (hk : (keptGroupsOf entries).get? i = some (p, g))
    (hh : g.html = none) (hi : g.image = some f) :
    (zipToItems entries url env).length = (keptGroupsOf entries).length ∧
    ∃ item, (zipToItems entries url env).get? i = some item ∧
      item.html = wrapperHtml f.name ∧ item.html ≠ "" ∧
      item.image = some (mkDataUrl f) := by
  constructor
  · rw [zipToItems, emitItems_length]
  · rw [zipToItems, emitItems_get?, hk]
    refine ⟨mkGroupItem url env (0 + i) p g, rfl, ?_, ?_, ?_⟩
    · exact (mkGroupItem_image_only url env (0 + i) p g f hh hi).1
    · rw [(mkGroupItem_image_only url env (0 + i) p g f hh hi).1]
      exact wrapperHtml_ne_empty f.name
    · exact (mkGroupItem_image_only url env (0 + i) p g f hh hi).2

/-- Witness for C2's amended theorem at the archive `[preview.png]`. -/
theorem c2_image_only_group_item_witness :
    (keptGroupsOf [entPng]).get? 0 = some ("", ⟨none, some entPng⟩) ∧
    (zipToItems [entPng] "u" (envAt 5)).length =
      (keptGroupsOf [entPng]).length ∧
    ∃ item, (zipToItems [entPng] "u" (envAt 5)).get? 0 = some item ∧
      item.html = wrapperHtml entPng.name ∧ item.html ≠ "" ∧
      item.image = some (mkDataUrl entPng) := by
  have hk : (keptGroupsOf [entPng]).get? 0 =
      some ("", ⟨none, some entPng⟩) := by decide
  have h := c2_image_only_group_item [entPng] "u" (envAt 5) 0 ""
    ⟨none, some entPng⟩ entPng hk rfl rfl
  exact ⟨hk, h.1, h.2⟩

/-- Claim C3: FALSE as stated.  The archive holding a single
`index.html` whose decoded content is the empty string yields a stored
item (the storage write happens) whose `html` is `""` and whose `image`
is absent — the kept-group test checks only that a matching ENTRY
exists, not that the produced content is non-empty. -/
theorem c3_counterexample :
    (processZipData (.ok [entEmptyHtml]) "u" none [] (envAt 0)).wroteStorage
      = true ∧
    (processZipData (.ok [entEmptyHtml]) "u" none [] (envAt 0)).stored =
      [⟨"0r", 0, "", none, "u", ""⟩] := by
  refine ⟨by decide, by decide⟩

theorem firstImageMatch_mem :
    ∀ (entries : List ZipEntry) (p : String) (f : ZipEntry),
    firstImageMatch entries p = some f →
    f ∈ entries ∧ imageRelevant f p = true := by
  intro entries
  induction entries with
  | nil => intro p f h; cases h
  | cons e es ih =>
    intro p f h
    simp only [firstImageMatch] at h
    by_cases hrel : imageRelevant e p
    · rw [if_pos hrel] at h
      exact ⟨Option.some.inj h ▸ List.mem_cons_self _ _,
        Option.some.inj h ▸ hrel⟩
    · rw [if_neg hrel] at h
      obtain ⟨hm, hr⟩ := ih p f h
      exact ⟨List.mem_cons_of_mem _ hm, hr⟩

/-- Claim C3, amended, in three parts.  (1) Discard: a group whose path
has no html-matching and no image-matching entry is not among the kept
groups, and since the emission loop produces exactly one item per kept
group, such a group yields no stored item.  (2) PROVIDED every
html-matching entry of the archive decodes to non-empty text, every
reconstructed item has non-empty `html` or a present `image`; without
that proviso an item may carry empty `html` and no image (see the
counterexample).  (3) The single-image save path satisfies the
invariant unconditionally. -/
theorem c3_item_nonempty_or_image :
    (∀ (entries : List ZipEntry) (p : String),
      (∀ e ∈ entries, htmlRelevant e p = false ∧ imageRelevant e p = false) →
      ∀ g : GroupFiles, (p, g) ∉ keptGroupsOf entries) ∧
    (∀ (entries : List ZipEntry) (url : String) (env : EmitEnv),
      (∀ e ∈ entries, isHtmlName (fileNameOfPath e.name) = true →
        e.text ≠ "") →
      ∀ item ∈ zipToItems entries url env,
        item.html ≠ "" ∨ item.image.isSome = true) ∧
    (∀ (b64 url fn : String) (cur : List CapturedItem) (now : Nat)
        (rand : String),
      ∃ it, saveSingleImageDesign b64 url fn cur now rand = it :: cur ∧
        it.html ≠ "" ∧ it.image = some b64) := by
  refine ⟨?_, ?_, ?_⟩
  · intro entries p hyp g hmem
    rw [keptGroupsOf] at hmem
    have hkg := List.mem_filter.mp hmem
    have hmemF : (p, g) ∈ buildFolders entries :=
      mem_jsEntriesOrder _ _ hkg.1
    have hlook : lookupGroup (buildFolders entries) p = some g :=
      lookup_of_mem _ p g (nodup_keys_buildFolders entries) hmemF
    have hspec := buildFolders_group_spec entries p g hlook
    have hh : g.html = none := by
      rw [hspec.1]
      cases hl : lastHtmlMatch entries p with
      | none => rfl
      | some f =>
        obtain ⟨hfin, hfrel⟩ := lastHtmlMatch_mem entries p f hl
        rw [(hyp f hfin).1] at hfrel
        simp at hfrel
    have hi : g.image = none := by
      rw [hspec.2]
      cases hl : firstImageMatch entries p with
      | none => rfl
      | some f =>
        obtain ⟨hfin, hfrel⟩ := firstImageMatch_mem entries p f hl
        rw [(hyp f hfin).2] at hfrel
        simp at hfrel
    have hkept : keptGroup g = true := hkg.2
    simp [keptGroup, hh, hi] at hkept
  · intro entries url env hyp item hmem
    rw [zipToItems] at hmem
    obtain ⟨k, p, g, hkept, heq⟩ := mem_emitItems url env _ 0 item hmem
    have hkg := List.mem_filter.mp hkept
    have hmemF : (p, g) ∈ buildFolders entries :=
      mem_jsEntriesOrder _ _ hkg.1
    have hlook : lookupGroup (buildFolders entries) p = some g :=
      lookup_of_mem _ p g (nodup_keys_buildFolders entries) hmemF
    have hspec := buildFolders_group_spec entries p g hlook
    cases hgi : g.image with
    | some f =>
      right
      subst heq
      simp [mkGroupItem, hgi]
    | none =>
      left
      have hksome : g.html.isSome = true := by
        have := hkg.2
        simp only [keptGroup, hgi, Option.isSome_none, Bool.or_false] at this
        exact this
      obtain ⟨f, hf⟩ := Option.isSome_iff_exists.mp hksome
      have hlast : lastHtmlMatch entries p = some f := by
        rw [← hspec.1, hf]
      obtain ⟨hfin, hfrel⟩ := lastHtmlMatch_mem entries p f hlast
      have hfname : isHtmlName (fileNameOfPath f.name) = true := by
        simp only [htmlRelevant, Bool.and_eq_true] at hfrel
        exact hfrel.2
      have htext : f.text ≠ "" := hyp f hfin hfname
      subst heq
      simpa [mkGroupItem, hf, hgi] using htext
  · intro b64 url fn cur now rand
    refine ⟨_, rfl, ?_, rfl⟩
    apply str_ne_empty_of_data_ne_nil
    apply data_ne_nil_append_left
    apply data_ne_nil_append_left
    apply data_ne_nil_append_left
    apply data_ne_nil_append_left
    decide

/-- Witness for C3's amended theorem: the discard half applied to the
archive `[readme.txt]` (no matching entry for the root group), and the
invariant half applied to the archive `[a.html]` (decoding to the
non-empty text `A`) and the item it emits. -/
theorem c3_item_nonempty_or_image_witness :
    (("", ⟨none, none⟩) : String × GroupFiles) ∉ keptGroupsOf [entReadme] ∧
    ((⟨"3r", 3, "A", none, "u", ""⟩ : CapturedItem).html ≠ "" ∨
      (⟨"3r", 3, "A", none, "u", ""⟩ : CapturedItem).image.isSome = true) := by
  constructor
  · exact c3_item_nonempty_or_image.1 [entReadme] "" (by decide) ⟨none, none⟩
  · have h := c3_item_nonempty_or_image.2.1 [entA] "u" (envAt 3) (by decide)
    exact h ⟨"3r", 3, "A", none, "u", ""⟩ (by decide)

theorem updateFolder_noop (g : GroupFiles) (fn : String) (e : ZipEntry)
    (h1 : isHtmlName fn = false) (h2 : isImageName fn = false) :
    updateFolder g fn e = g := by
  simp [updateFolder, h1, h2]

theorem buildFolders_trivial (entries : List ZipEntry)
    (hyp : ∀ e ∈ entries, e.dir = false →
      isHtmlName (fileNameOfPath e.name) = false ∧
      isImageName (fileNameOfPath e.name) = false) :
    ∀ pg ∈ buildFolders entries, pg.2 = (⟨none, none⟩ : GroupFiles) := by
  rw [buildFolders]
  have main : ∀ (l : List ZipEntry) (acc : List (String × GroupFiles)),
      (∀ e ∈ l, e.dir = false →
        isHtmlName (fileNameOfPath e.name) = false ∧
        isImageName (fileNameOfPath e.name) = false) →
      (∀ pg ∈ acc, pg.2 = (⟨none, none⟩ : GroupFiles)) →
      ∀ pg ∈ l.foldl addEntry acc, pg.2 = (⟨none, none⟩ : GroupFiles) := by
    intro l
    induction l with
    | nil => intro acc _ hacc pg h; exact hacc pg h
    | cons e es ih =>
      intro acc hl hacc pg h
      rw [List.foldl_cons] at h
      refine ih (addEntry acc e)
        (fun x hx hdx => hl x (List.mem_cons_of_mem _ hx) hdx) ?_ pg h
      intro y hy
      by_cases hd : e.dir
      · rw [addEntry, if_pos hd] at hy
        exact hacc y hy
      · rw [addEntry, if_neg hd] at hy
        have hdf : e.dir = false := Bool.eq_false_iff.mpr hd
        have hnm := hl e (List.mem_cons_self _ _) hdf
        rcases mem_upsert _ _ _ y hy with hin | ⟨g0, heq, hg0⟩
        · exact hacc y hin
        · have hupd0 : updateFolder g0 (fileNameOfPath e.name) e = g0 :=
            updateFolder_noop g0 _ e hnm.1 hnm.2
          rcases hg0 with h0 | h0
          · rw [heq]
            exact hupd0.trans h0
          · have hg0t : g0 = (⟨none, none⟩ : GroupFiles) := hacc _ h0
            rw [heq]
            exact hupd0.trans hg0t
  exact main entries [] hyp (by intro pg h; cases h)

/-- Claim C5: a decode failure is caught inside `processZipData` (the
embedding is a total function whose error branch only logs): the stored
collection is unchanged, nothing is written, and no notification is
scheduled; an archive with no matching files — the empty archive
included — reconstructs to zero items with no storage write and no
error logged. -/
theorem c5_decode_error_and_empty :
    (∀ (url : String) (tabId : Option Nat) (cur : List CapturedItem)
        (env : EmitEnv),
      processZipData .err url tabId cur env = ⟨cur, false, none, true⟩) ∧
    (∀ (entries : List ZipEntry) (url : String) (tabId : Option Nat)
        (cur : List CapturedItem) (env : EmitEnv),
      (∀ e ∈ entries, e.dir = false →
        isHtmlName (fileNameOfPath e.name) = false ∧
        isImageName (fileNameOfPath e.name) = false) →
      zipToItems entries url env = [] ∧
      processZipData (.ok entries) url tabId cur env =
        ⟨cur, false, none, false⟩) := by
  constructor
  · intro url tabId cur env
    rfl
  · intro entries url tabId cur env hyp
    have hz : zipToItems entries url env = [] := by
      rw [zipToItems]
      have hkept : keptGroupsOf entries = [] := by
        rw [keptGroupsOf, List.filter_eq_nil_iff]
        intro pg hpg
        have htriv := buildFolders_trivial entries hyp pg
          (mem_jsEntriesOrder _ _ hpg)
        simp [keptGroup, htriv]
      rw [keptGroupsOf] at hkept ⊢
      rw [hkept]
      rfl
    refine ⟨hz, ?_⟩
    simp [processZipData, hz]

/-- Witness for C5 at a malformed archive and at the one-entry archive
`[readme.txt]` (matching neither test). -/
theorem c5_decode_error_and_empty_witness :
    processZipData .err "u" none [] (envAt 0) = ⟨[], false, none, true⟩ ∧
    zipToItems [entReadme] "u" (envAt 0) = [] ∧
    processZipData (.ok [entReadme]) "u" none [] (envAt 0) =
      ⟨[], false, none, false⟩ := by
  refine ⟨c5_decode_error_and_empty.1 "u" none [] (envAt 0), ?_, ?_⟩
  · exact (c5_decode_error_and_empty.2 [entReadme] "u" none [] (envAt 0)
      (by decide)).1
  · exact (c5_decode_error_and_empty.2 [entReadme] "u" none [] (envAt 0)
      (by decide)).2

/-- Claim C4 (code bug): the background message listener dispatches only
on `BLOB_DATA_CAPTURED`, `OPEN_SIDE_PANEL`, `TOGGLE_SIDE_PANEL` and
`FETCH_IMAGE_BASE64`.  The `STITCH_EXPORT_FULL` message the Bridge's
export-trigger strategy chain sends (here: the long-selection strategy,
title `Selected Code`) matches none of them: the listener falls through,
the state is unchanged, and NO CapturedItem is saved — even though the
content script reports success and the README documents the feature. -/
theorem c4_export_full_unhandled :
    ∀ (sel pageUrl : String) (sender : MsgSender) (st : ToggleState)
      (now : Nat),
    bgOnMessage (selectionExportRequest sel pageUrl) sender st now =
      (st, .unhandled) := by
  intro sel pageUrl sender st now
  simp [bgOnMessage, selectionExportRequest]

/-- Claim C6: title derivation on the spec's three examples, plus the
orientation in which the `_canvas_screen` parent-segment fallback
actually fires (`Home_Page/_canvas_screen`; in
`_canvas_screen/Home_Page` the last segment is already `Home_Page`, and
the result is `Home Page` either way). -/
theorem c6_title_derivation :
    deriveTitle "_canvas_screen/Home_Page" = "Home Page" ∧
    deriveTitle "Home_Page/_canvas_screen" = "Home Page" ∧
    deriveTitle "My_Button" = "My Button" ∧
    deriveTitle "Stitch_Landing" = "Landing" := by
  refine ⟨by decide, by decide, by decide, by decide⟩

theorem mem_trimChars (c : Char) (l : List Char) (h : c ∈ trimChars l) :
    c ∈ l := by
  rw [trimChars, List.mem_reverse] at h
  have h2 := (List.dropWhile_sublist _).mem h
  rw [List.mem_reverse] at h2
  exact (List.dropWhile_sublist _).mem h2

/-- Claim C7: FALSE for the side-panel card.  An all-invalid input
(`"???"`) sanitizes to the empty string; `ExportCard.handleSaveTitle`
then issues NO rename, so an item previously titled `Foo` keeps the
title `Foo` instead of the claimed `Untitled Design`. -/
theorem c7_counterexample :
    sanitizeTitle "???" = "" ∧
    storedTitleAfterCardSave (some "Foo") "???" = some "Foo" ∧
    (some "Foo" : Option String) ≠ some "Untitled Design" := by
  refine ⟨by decide, by decide, by decide⟩

/-- Claim C7, amended: both handlers strip exactly `<>:"/\|?*` and trim
whitespace (every kept character comes from the input and is not one of
the stripped set).  On a sanitized-non-empty input both store the
sanitized title.  On a sanitized-empty input the PREVIEW page stores
`Untitled Design`, but the CARD performs no rename and the stored title
stays what it was. -/
theorem c7_sanitize_behavior :
    ∀ (input : String) (prev : Option String),
    (sanitizeTitle input ≠ "" →
      previewHandleSaveTitle input = sanitizeTitle input ∧
      storedTitleAfterCardSave prev input = some (sanitizeTitle input)) ∧
    (sanitizeTitle input = "" →
      previewHandleSaveTitle input = "Untitled Design" ∧
      storedTitleAfterCardSave prev input = prev) ∧
    (∀ c ∈ (sanitizeTitle input).data, c ∈ input.data ∧
      isInvalidFileChar c = false) := by
  intro input prev
  refine ⟨?_, ?_, ?_⟩
  · intro h
    constructor
    · simp [previewHandleSaveTitle, h]
    · simp [storedTitleAfterCardSave, cardHandleSaveTitle, h]
  · intro h
    constructor
    · simp [previewHandleSaveTitle, h]
    · simp [storedTitleAfterCardSave, cardHandleSaveTitle, h]
  · intro c hc
    rw [sanitizeTitle] at hc
    have hc2 : c ∈ input.data.filter (fun c => !isInvalidFileChar c) :=
      mem_trimChars c _ hc
    obtain ⟨h1, h2⟩ := List.mem_filter.mp hc2
    exact ⟨h1, by simpa using h2⟩

/-- Witness for C7's amended theorem at the input `" My: Design? "`
(sanitizes to `My Design`) with previous title `Old`. -/
theorem c7_sanitize_behavior_witness :
    previewHandleSaveTitle " My: Design? " = "My Design" ∧
    storedTitleAfterCardSave (some "Old") " My: Design? " =
      some "My Design" := by
  have h := (c7_sanitize_behavior " My: Design? " (some "Old")).1 (by decide)
  have hs : sanitizeTitle " My: Design? " = "My Design" := by decide
  exact ⟨h.1.trans hs, h.2.trans (by rw [hs])⟩

/-- Claim C8: three ingestion events, each within 1 second of the
previous, followed by 1 second of inactivity: no notification fires
during the burst (each event cancels the pending timer), and the timer
armed by the last event delivers exactly one notification whose count is
the sum of the three event counts. -/
theorem c8_notification_batching :
    ∀ (t1 t2 t3 c1 c2 c3 : Nat) (tb1 tb2 tb3 : Option Nat),
    t2 < t1 + 1000 → t3 < t2 + 1000 →
    (runNotif notifInit [(t1, c1, tb1), (t2, c2, tb2), (t3, c3, tb3)]).2
      = [] ∧
    ((fireDue
        (runNotif notifInit [(t1, c1, tb1), (t2, c2, tb2), (t3, c3, tb3)]).1
        (t3 + 1000)).2).map NotifOut.count = [c1 + c2 + c3] := by
  intro t1 t2 t3 c1 c2 c3 tb1 tb2 tb3 h12 h23
  have hn1 : ¬ (t1 + 1000 ≤ t2) := by omega
  have hn2 : ¬ (t2 + 1000 ≤ t3) := by omega
  constructor
  · simp [runNotif, notifStep, fireDue, scheduleNotification, notifInit,
      hn1, hn2]
  · simp [runNotif, notifStep, fireDue, scheduleNotification, notifInit,
      hn1, hn2]

/-- Witness for C8 at the burst 10000, 10500, 10900 ms with counts
2, 3, 1. -/
theorem c8_notification_batching_witness :
    (runNotif notifInit
      [(10000, 2, none), (10500, 3, some 5), (10900, 1, none)]).2 = [] ∧
    ((fireDue
        (runNotif notifInit
          [(10000, 2, none), (10500, 3, some 5), (10900, 1, none)]).1
        (10900 + 1000)).2).map NotifOut.count = [2 + 3 + 1] :=
  c8_notification_batching 10000 10500 10900 2 3 1 none (some 5) none
    (by omega) (by omega)

theorem lookupTime_setTime_self :
    ∀ (m : List (Nat × Nat)) (k v : Nat),
    lookupTime (setTime m k v) k = some v := by
  intro m
  induction m with
  | nil => intro k v; simp [setTime, lookupTime]
  | cons hd tl ih =>
    intro k v
    obtain ⟨k', v'⟩ := hd
    by_cases hk : k' = k
    · subst hk
      simp [setTime, lookupTime]
    · simp [setTime, lookupTime, hk, ih]

/-- Claim C9: starting from "believed closed" (window not in the
open-panel set) with a stale-enough last toggle, the first toggle
request opens the panel; a second request for the same tab within 1
second hits the stuck-state heuristic and performs the forced
disable-then-re-enable cycle (with the forced-close broadcast) instead
of a second open. -/
theorem c9_stuck_panel_recovery :
    ∀ (st : ToggleState) (w t n1 n2 : Nat),
    st.openSidePanels.contains w = false →
    (lookupTime st.lastToggleTimes t).getD 0 + 1000 ≤ n1 →
    n2 < n1 + 1000 →
    (handleToggleSidePanel st w t n1).2 = .enableAndOpen t w ∧
    (handleToggleSidePanel (handleToggleSidePanel st w t n1).1 w t n2).2 =
      .disableThenEnable t w true := by
  intro st w t n1 n2 hopen hlast h12
  have hnotmem : w ∉ st.openSidePanels := by simpa using hopen
  have hstale : ¬ (n1 - (lookupTime st.lastToggleTimes t).getD 0 < 1000) := by
    omega
  constructor
  · simp [handleToggleSidePanel, hopen, hnotmem, hstale]
  · have hst1 : (handleToggleSidePanel st w t n1).1 =
        { st with lastToggleTimes := setTime st.lastToggleTimes t n1 } := by
      simp only [handleToggleSidePanel]
      split <;> rfl
    rw [hst1]
    have hlk : lookupTime (setTime st.lastToggleTimes t n1) t = some n1 :=
      lookupTime_setTime_self st.lastToggleTimes t n1
    have hfresh : n2 - n1 < 1000 := by omega
    simp [handleToggleSidePanel, hopen, hnotmem, hlk, hfresh]

/-- Witness for C9: empty initial state, window 1, tab 2, toggles at
5000 ms and 5500 ms. -/
theorem c9_stuck_panel_recovery_witness :
    (handleToggleSidePanel ⟨[], []⟩ 1 2 5000).2 = .enableAndOpen 2 1 ∧
    (handleToggleSidePanel (handleToggleSidePanel ⟨[], []⟩ 1 2 5000).1
      1 2 5500).2 = .disableThenEnable 2 1 true :=
  c9_stuck_panel_recovery ⟨[], []⟩ 1 2 5000 5500 (by decide) (by decide)
    (by decide)

theorem emitItems_strip (url : String) :
    ∀ (ks : List (String × GroupFiles)) (j1 j2 : Nat) (envA envB : EmitEnv),
    (emitItems url envA j1 ks).map stripVolatile =
      (emitItems url envB j2 ks).map stripVolatile := by
  intro ks
  induction ks with
  | nil => intro j1 j2 envA envB; rfl
  | cons hd tl ih =>
    intro j1 j2 envA envB
    obtain ⟨p, g⟩ := hd
    simp only [emitItems, List.map_cons]
    rw [ih (j1 + 1) (j2 + 1) envA envB]
    rfl

/-- Claim C10: FALSE as stated.  Two runs of the reconstruction on the
same archive bytes at different emission times produce different output
lists: ids and timestamps are stamped from the run-time clock (and
random suffix), so a run at t=0 and a run at t=1000 disagree. -/
theorem c10_counterexample :
    zipToItems [entPng] "u" (envAt 0) ≠ zipToItems [entPng] "u" (envAt 1000) := by
  decide

/-- Claim C10, amended: reconstruction is deterministic up to the
freshly stamped `id` and `timestamp`: any two runs on the same archive
bytes agree element for element, in order, on every other field
(html, image, sourceUrl, title), and have the same length; runs with
identical clock and randomness are fully identical (the embedding is a
pure function of them). -/
theorem c10_deterministic_mod_id_timestamp :
    ∀ (entries : List ZipEntry) (url : String) (envA envB : EmitEnv),
    (zipToItems entries url envA).map stripVolatile =
      (zipToItems entries url envB).map stripVolatile ∧
    (zipToItems entries url envA).length =
      (zipToItems entries url envB).length := by
  intro entries url envA envB
  constructor
  · rw [zipToItems, zipToItems]
    exact emitItems_strip url _ 0 0 envA envB
  · rw [zipToItems, zipToItems, emitItems_length, emitItems_length]
